import Mathlib

/-!
Verification development for the B+ tree key-value store
(`main.py`, `node.py`, `memory.py`, `utils.py`).

The Python source is shallowly embedded: each Python function becomes a
Lean function over explicit state.  Machine-level conventions:

* Python byte strings are `List Nat` (each entry one byte); UTF-8 encode
  and decode of `str` payloads form a bijection between strings and their
  byte images, so leaf values are modelled directly at the byte level.
* Python `Optional[int]` fields are `Option Nat`.
* Python exceptions are modelled with `Except PyErr`.
* Python in-place mutation of node objects is modelled by threading the
  updated node value; where the source mutates an object that also sits
  in the page cache, the model updates the cache entry at the same
  program point (`silentUpdate`), so the cache agrees with the source on
  every run considered here.
* Unbounded loops and the mutual recursion of coalescing are given a
  fuel parameter; exhausted fuel is the distinguished error `outOfFuel`
  (the source would loop forever or recurse deeper).
-/

set_option maxRecDepth 40000

namespace BPT

/-- Python runtime errors surfaced by the modelled operations. -/
inductive PyErr where
  | indexError
  | keyError
  | valueError
  | typeError
  | assertionError
  | attributeError
  | outOfFuel
deriving DecidableEq

/-- Normalisation of a Python sequence index: a negative index counts
from the end of a sequence of length `len`. -/
def pyNorm (len : Nat) (i : Int) : Int :=
  if i < 0 then i + len else i

/-- Python list read `l[i]`: a negative index wraps from the end;
an out-of-range access raises `IndexError`. -/
def pyIdx {α : Type} (l : List α) (i : Int) : Except PyErr α :=
  if h : 0 ≤ pyNorm l.length i ∧ pyNorm l.length i < l.length then
    .ok (l.get ⟨(pyNorm l.length i).toNat, by omega⟩)
  else
    .error .indexError

/-- Python list write `l[i] = a` with the same wrapping rule. -/
def pySet {α : Type} (l : List α) (i : Int) (a : α) : Except PyErr (List α) :=
  if 0 ≤ pyNorm l.length i ∧ pyNorm l.length i < l.length then
    .ok (l.set (pyNorm l.length i).toNat a)
  else
    .error .indexError

/-- Python `l.pop(i)`: returns the removed element and the remaining list. -/
def pyPop {α : Type} (l : List α) (i : Int) : Except PyErr (α × List α) :=
  if h : 0 ≤ pyNorm l.length i ∧ pyNorm l.length i < l.length then
    .ok (l.get ⟨(pyNorm l.length i).toNat, by omega⟩,
         l.eraseIdx (pyNorm l.length i).toNat)
  else
    .error .indexError

/-- Python `l.insert(i, a)`: clamps the position into `[0, len]`,
wrapping negative indices first; never raises. -/
def pyInsertAt {α : Type} (l : List α) (i : Int) (a : α) : List α :=
  List.insertIdx (max 0 (min (pyNorm l.length i) l.length)).toNat a l

/-- Python `l.index(a)` at the guarded call sites (the element is known
to be present; on an absent element the model returns `l.length`). -/
def pyIndexOf (l : List Int) (k : Int) : Nat :=
  match l with
  | [] => 0
  | a :: r => if a = k then 0 else pyIndexOf r k + 1

/-- Binary-search loop of `utils.find_last_leq`; the Python loop
variable `mid = (left + right) // 2` is written inline, and `arr[mid]`
is always within bounds on reachable calls, so it is read with a
default.  Structural recursion on an iteration bound: the interval
`[left, right]` shrinks by at least one element per round, so a bound
of `right + 1 - left + 1` iterations is never exhausted (the proof is
`flqGo_fuel_irrelevant`); the bound keeps the loop computable by the
kernel. -/
def flqGo (arr : List Int) (target : Int) : Nat → Int → Int → Int → Int
  | 0, _, _, acc => acc
  | fuel + 1, left, right, acc =>
    if left ≤ right then
      if arr.getD ((left + right) / 2).toNat 0 ≤ target then
        flqGo arr target fuel ((left + right) / 2 + 1) right ((left + right) / 2)
      else
        flqGo arr target fuel left ((left + right) / 2 - 1) acc
    else acc

/-- `utils.find_last_leq(arr, target)`: greatest index `i` with
`arr[i] ≤ target`, `-1` when there is none. -/
def findLastLeq (arr : List Int) (target : Int) : Int :=
  flqGo arr target (arr.length + 1) 0 ((arr.length : Int) - 1) (-1)

/-- Accumulator loop of `pyLen`; matching on the accumulator keeps it
a numeral during reduction. -/
def pyLenAux {α : Type} : List α → Nat → Nat
  | [], acc => acc
  | _ :: r, 0 => pyLenAux r 1
  | _ :: r, n + 1 => pyLenAux r (n + 2)

/-- Python `len` on a byte string (constant-time in Python; here a
tail-recursive traversal, equal to `List.length` by `pyLen_eq`). -/
def pyLen {α : Type} (l : List α) : Nat := pyLenAux l 0

/-- Value stored in `Node.values`: an internal node stores child page
ids (`int` in the source), a leaf stores the payload byte string. -/
inductive Val where
  | pid : Nat → Val
  | str : List Nat → Val
deriving DecidableEq

/-- A B+ tree node / page (`node.Node`).  `page_parent`, `page_prev` and
`page_next` are `Optional[int]` in the source.  The write-only `size`
attribute (set by the constructor and the decoder, read by no
operation) is omitted. -/
structure Node where
  page_offset : Nat
  page_parent : Option Nat
  page_prev : Option Nat
  page_next : Option Nat
  keys : List Int
  values : List Val
  is_leaf : Bool
  is_changed : Bool
deriving DecidableEq

/-- `Node.page_max_size`. -/
def page_max_size : Nat := 4096

/-- `Node.default_merge_size` (`2048 - 32`). -/
def default_merge_size : Nat := 2016

/-- `Node.is_root`: the parent pointer is `None`. -/
def Node.is_root (n : Node) : Bool := n.page_parent = none

/-- A fresh node as produced by the `Node`/`LeafNode` constructors,
with page id `po` (the bumped `Node.page_count`). -/
def freshNode (po : Nat) (parent : Option Nat) (leaf : Bool) : Node :=
  { page_offset := po, page_parent := parent, page_prev := none,
    page_next := none, keys := [], values := [], is_leaf := leaf,
    is_changed := false }

/-- Little-endian encoding of `v` on `w` bytes (`struct.pack`
truncates the value modulo `2^(8*w)`; the source never packs an
out-of-range field on the runs considered). -/
def leBytes : Nat → Nat → List Nat
  | 0, _ => []
  | w + 1, v => v % 256 :: leBytes w (v / 256)

/-- Little-endian read of a whole byte list. -/
def readLE : List Nat → Nat
  | [] => 0
  | b :: bs => b + 256 * readLE bs

/-- Read a `w`-byte little-endian field from the front of `bs`,
returning the value and the remaining bytes. -/
def readField (w : Nat) (bs : List Nat) : Nat × List Nat :=
  (readLE (bs.take w), bs.drop w)

/-- Two's-complement reading of a 4-byte unsigned value as the signed
`int32` that `struct.unpack("i", ...)` yields. -/
def sint32 (u : Nat) : Int :=
  if u < 2147483648 then (u : Int) else (u : Int) - 4294967296

/-- `struct.pack("i", k)`: 4-byte little-endian two's complement. -/
def int32LE (k : Int) : List Nat :=
  leBytes 4 (k.emod 4294967296).toNat

/-- Decimal ASCII digits of a positive natural (helper for `str(int)`),
structurally recursive on a digit-count bound that is never exhausted
for `fuel > n` (dividing by 10 reaches 0 in at most `n` steps). -/
def decAux : Nat → Nat → List Nat
  | 0, _ => []
  | fuel + 1, n =>
    if n = 0 then [] else decAux fuel (n / 10) ++ [n % 10 + 48]

/-- `str(n).encode()` for a natural number `n`. -/
def decRepr (n : Nat) : List Nat :=
  if n = 0 then [48] else decAux (n + 1) n

/-- `int(s)` on a list of ASCII digits. -/
def parseDec (bs : List Nat) : Nat :=
  bs.foldl (fun acc b => acc * 10 + (b - 48)) 0

/-- `int(s)` including the `ValueError` on an empty or non-digit
string (the decimal forms produced by the encoder are digits only). -/
def parseDecE (bs : List Nat) : Except PyErr Nat :=
  if bs ≠ [] ∧ bs.all (fun b => 48 ≤ b ∧ b ≤ 57) then .ok (parseDec bs)
  else .error .valueError

/-- Byte image of one value as `Node.serialize` writes it: an `int`
child pointer becomes its decimal text, a payload its UTF-8 bytes. -/
def valBytes : Val → List Nat
  | .pid k => decRepr k
  | .str s => s

/-- The value region of `Node.serialize`: each value is followed by one
zero pad byte; with no records the format string is the single pad
`"x"`, producing one zero byte. -/
def encVals (vs : List Val) : List Nat :=
  if vs.isEmpty then [0]
  else vs.flatMap (fun v => valBytes v ++ [0])

/-- `Node.serialize`: header `"=QQQQIQ"` (offsets, `is_leaf`, record
count), then the keys as 4-byte signed ints, then the value region.
`None` pointers serialize as `0` (`x or 0`); values are paired with
keys by index, so values beyond `len(keys)` are not written. -/
def serialize (n : Node) : List Nat :=
  leBytes 8 n.page_offset ++
  leBytes 8 (n.page_parent.getD 0) ++
  leBytes 8 (n.page_prev.getD 0) ++
  leBytes 8 (n.page_next.getD 0) ++
  leBytes 4 (if n.is_leaf then 1 else 0) ++
  leBytes 8 n.keys.length ++
  n.keys.flatMap int32LE ++
  encVals (n.values.take n.keys.length)

/-- Python `bytes.split(b"\x00")`. -/
def splitOnZero : List Nat → List (List Nat)
  | [] => [[]]
  | b :: bs =>
    if b = 0 then [] :: splitOnZero bs
    else
      match splitOnZero bs with
      | g :: gs => (b :: g) :: gs
      | [] => [[b]]

/-- The decoder's collection loop over the split segments: keep the
non-empty segments up to the first empty one. -/
def collectSegs : List (List Nat) → List (List Nat)
  | [] => []
  | s :: gs => if s = [] then [] else s :: collectSegs gs

/-- `Memorymanagement.read_from_disk`, decoding part: parse the fixed
header, `record_count` keys, then split the remainder on the zero byte.
Short buffers raise `struct.error`, surfaced as `ValueError`; an
internal node's values must parse as integers.  The `Node`/`LeafNode`
constructor call inside bumps the global `Node.page_count`, threaded
here as `pc`.  The UTF-8 decode of leaf payloads is the identity at the
byte level. -/
def decodePage (raw : List Nat) (pc : Nat) : Except PyErr (Node × Nat) :=
  if pyLen raw < 44 then .error .valueError else
  let r0 := readField 8 raw
  let r1 := readField 8 r0.2
  let r2 := readField 8 r1.2
  let r3 := readField 8 r2.2
  let r4 := readField 4 r3.2
  let r5 := readField 8 r4.2
  if pyLen r5.2 < 4 * r5.1 then .error .valueError else
  let ks := parseKeys r5.1 r5.2
  let segs := collectSegs (splitOnZero ks.2)
  if r4.1 ≠ 0 then
    .ok ({ page_offset := r0.1, page_parent := some r1.1,
           page_prev := some r2.1, page_next := some r3.1,
           keys := ks.1, values := segs.map Val.str,
           is_leaf := true, is_changed := false }, pc + 1)
  else do
    let pids ← segs.mapM parseDecE
    .ok ({ page_offset := r0.1, page_parent := some r1.1,
           page_prev := some r2.1, page_next := some r3.1,
           keys := ks.1, values := pids.map Val.pid,
           is_leaf := false, is_changed := false }, pc + 1)
where
  /-- `struct.unpack("i" * record_count, ...)`. -/
  parseKeys : Nat → List Nat → List Int × List Nat
    | 0, bs => ([], bs)
    | c + 1, bs =>
      let k := sint32 (readLE (bs.take 4))
      let r := parseKeys c (bs.drop 4)
      (k :: r.1, r.2)

/-- A freshly written 4096-byte page slot holding the encoding of a
node: the unused tail is zero. -/
def pagePad (bs : List Nat) : List Nat :=
  bs ++ List.replicate (4096 - bs.length) 0

/-- State of `Memorymanagement` plus the global `Node.page_count`
class attribute (the id allocation counter).  The cache is the
`OrderedDict` in recency order: head = least recently used, tail = most
recently used.  `disk` maps a page id to the bytes last written to its
slot; a slot never written reads as a short buffer, which the decoder
rejects with `ValueError` (pages inside holes of the file are not
reached on the runs considered). -/
structure Mem where
  capacity : Nat
  cache : List (Nat × Node)
  disk : List (Nat × List Nat)
  empty_page_count : List Nat
  page_count : Nat
deriving DecidableEq

/-- Association-list lookup by page id. -/
def lookupPage : List (Nat × Node) → Nat → Option Node
  | [], _ => none
  | (i, n) :: r, id => if i = id then some n else lookupPage r id

/-- Remove the first entry with the given id. -/
def removeId : List (Nat × Node) → Nat → List (Nat × Node)
  | [], _ => []
  | (i, n) :: r, id => if i = id then r else (i, n) :: removeId r id

/-- In-place mutation of a cached node object: the entry with the same
id (if any) now holds the updated node; recency order is unchanged. -/
def silentUpdate (m : Mem) (id : Nat) (n : Node) : Mem :=
  { m with cache := m.cache.map (fun e => if e.1 = id then (id, n) else e) }

/-- Association-list lookup in the disk map. -/
def lookupDisk : List (Nat × List Nat) → Nat → Option (List Nat)
  | [], _ => none
  | (i, b) :: r, id => if i = id then some b else lookupDisk r id

/-- Store bytes for a page id in the disk map. -/
def storeDisk : List (Nat × List Nat) → Nat → List Nat → List (Nat × List Nat)
  | [], id, bs => [(id, bs)]
  | (i, b) :: r, id, bs =>
    if i = id then (id, bs) :: r else (i, b) :: storeDisk r id bs

/-- `Memorymanagement.write_to_disk`: serialize the page and write it
at its slot. -/
def writeToDisk (page : Node) (m : Mem) : Mem :=
  { m with disk := storeDisk m.disk page.page_offset (serialize page) }

/-- `Memorymanagement.put_page`: an existing id is overwritten and
moved to the MRU end; otherwise, if the cache has reached capacity, the
LRU entry is popped (on an empty cache `popitem` raises `KeyError`) and
written back when dirty; the new entry goes to the MRU end. -/
def putPage (id : Nat) (page : Node) (m : Mem) : Except PyErr Mem :=
  if (lookupPage m.cache id).isSome then
    .ok { m with cache := removeId m.cache id ++ [(id, page)] }
  else if m.cache.length ≥ m.capacity then
    match m.cache with
    | [] => .error .keyError
    | e :: rest =>
      let m1 := { m with cache := rest }
      let m2 := if e.2.is_changed then writeToDisk e.2 m1 else m1
      .ok { m2 with cache := m2.cache ++ [(id, page)] }
  else
    .ok { m with cache := m.cache ++ [(id, page)] }

/-- `Memorymanagement.get_page`: a cache hit moves the entry to the MRU
end; a miss loads and decodes the page from disk (raising `ValueError`
for id `0` or a missing/short slot) and inserts it through `put_page`. -/
def getPage (id : Nat) (m : Mem) : Except PyErr (Node × Mem) :=
  match lookupPage m.cache id with
  | some n => .ok (n, { m with cache := removeId m.cache id ++ [(id, n)] })
  | none =>
    if id = 0 then .error .valueError
    else
      match lookupDisk m.disk id with
      | none => .error .valueError
      | some raw => do
        let r ← decodePage raw m.page_count
        let m1 := { m with page_count := r.2 }
        let m2 ← putPage id r.1 m1
        .ok (r.1, m2)

/-- `get_page` applied to an entry of `Node.values`: internal nodes
store `int` page ids; a leaf payload reaching this call site fails in
`int(page_id)` with `ValueError` (the payloads considered are not
decimal text). -/
def getPageVal (v : Val) (m : Mem) : Except PyErr (Node × Mem) :=
  match v with
  | .pid n => getPage n m
  | .str _ => .error .valueError

/-- Coercion of an internal node's child-pointer list to the `int`
list handed to `find_last_leq`; a `str` value would make the `<=`
comparison raise `TypeError`. -/
def valuesAsInts : List Val → Except PyErr (List Int)
  | [] => .ok []
  | .pid n :: r => do
    let t ← valuesAsInts r
    .ok ((n : Int) :: t)
  | .str _ :: _ => .error .typeError

/-- State of a `BPlusTree` object: the metadata attributes, the
`root_node` attribute (an `Optional[Node]`), and the memory manager.
The `root_node` copy is refreshed exactly where the source assigns
`self.root_node`. -/
structure STree where
  root_page_id : Nat
  root_node : Option Node
  mem : Mem
  split_count : Nat
  merge_count : Nat
  node_count : Nat
deriving DecidableEq

/-- State produced by `BPlusTree.create` on a file that does not yet
exist: a single empty leaf root with page id 1, written to disk, with
an empty cache of the given capacity. -/
def freshTree (capacity : Nat) : STree :=
  { root_page_id := 1, root_node := some (freshNode 1 none true),
    mem := { capacity := capacity, cache := [],
             disk := storeDisk [] 1 (serialize (freshNode 1 none true)),
             empty_page_count := [], page_count := 1 },
    split_count := 0, merge_count := 0, node_count := 0 }

/-- Loop of `BPlusTree.get`: route with `find_last_leq` until a leaf,
then return `values[i]` when `keys[i] == key` and `None` otherwise
(both reads use Python indexing, so an empty leaf raises
`IndexError`). -/
def getLoop : Nat → Int → Node → Mem → Except PyErr (Option Val × Mem)
  | 0, _, _, _ => .error .outOfFuel
  | fuel + 1, key, node, m =>
    if node.is_leaf then do
      let k ← pyIdx node.keys (findLastLeq node.keys key)
      if k = key then do
        let v ← pyIdx node.values (findLastLeq node.keys key)
        .ok (some v, m)
      else .ok (none, m)
    else do
      let vv ← pyIdx node.values (findLastLeq node.keys key)
      let r ← getPageVal vv m
      getLoop fuel key r.1 r.2

/-- `BPlusTree.get`. -/
def getOp (fuel : Nat) (key : Int) (t : STree) : Except PyErr (Option Val × STree) :=
  match t.root_node with
  | none => .error .attributeError
  | some root => do
    let r ← getLoop fuel key root t.mem
    .ok (r.1, { t with mem := r.2 })

/-- Descent loop of `BPlusTree.insert`: the loop body is wrapped in a
`try/except` that only prints, so an exception leaves `node` unchanged
and the loop retries forever (here: until the fuel runs out). -/
def descendInsert : Nat → Int → Node → Mem → Except PyErr (Node × Mem)
  | 0, _, _, _ => .error .outOfFuel
  | fuel + 1, key, node, m =>
    if node.is_leaf then .ok (node, m)
    else
      match (do
          let vv ← pyIdx node.values (findLastLeq node.keys key)
          getPageVal vv m : Except PyErr (Node × Mem)) with
      | .ok r => descendInsert fuel key r.1 r.2
      | .error _ => descendInsert fuel key node m

/-- `BPlusTree.__split_node`.  A fresh sibling (and, for the root, a
fresh parent) is allocated through the `Node`/`LeafNode` constructor,
bumping `page_count`; a non-root node loads its parent through the
cache.  The middle key stays in the right sibling. -/
def splitNode (node : Node) (t : STree) : Except PyErr (Node × Node × Node × STree) := do
  let rightId := t.mem.page_count + 1
  let right0 := freshNode rightId none node.is_leaf
  let tA := { t with
    mem := { t.mem with page_count := rightId },
    node_count := t.node_count + 1 }
  let topres ← (if node.page_offset = t.root_page_id then
      Except.ok (freshNode (rightId + 1) none false,
        { tA with
          mem := { tA.mem with page_count := rightId + 1 },
          node_count := tA.node_count + 1 })
    else do
      let pid ← (match node.page_parent with
        | some p => Except.ok p
        | none => Except.error PyErr.valueError)
      let gp ← getPage pid tA.mem
      Except.ok (gp.1, { tA with mem := gp.2 }))
  let top0 := topres.1
  let mid := node.keys.length / 2
  let right1 := { right0 with
    keys := node.keys.drop mid,
    values := node.values.drop mid,
    page_prev := some node.page_offset,
    page_next := node.page_next,
    page_parent := some top0.page_offset }
  let top1 ← (if top0.keys.length > 0 then do
      let rk0 ← pyIdx right1.keys 0
      Except.ok { top0 with
        keys := pyInsertAt top0.keys (findLastLeq top0.keys rk0 + 1) rk0,
        values := pyInsertAt top0.values (findLastLeq top0.keys rk0 + 1)
          (Val.pid right1.page_offset) }
    else do
      let nk0 ← pyIdx node.keys 0
      let rk0 ← pyIdx right1.keys 0
      Except.ok { top0 with
        keys := [nk0, rk0],
        values := [Val.pid node.page_offset, Val.pid right1.page_offset] })
  let node1 := { node with
    keys := node.keys.take mid,
    values := node.values.take mid,
    page_parent := some top1.page_offset,
    page_next := some right1.page_offset }
  .ok ({ top1 with is_changed := true }, { node1 with is_changed := true },
       { right1 with is_changed := true }, topres.2)

/-- Split loop of `BPlusTree.insert` (step 2 onwards): split, bump the
split counter, refresh the root when the new parent has no parent,
reset the `is_leaf` flags on the upper rounds, write all three pages
back, and stop when the parent fits — falling off the function, which
returns `None`. -/
def splitLoop : Nat → Node → Bool → STree → Except PyErr (Option Bool × STree)
  | 0, _, _, _ => .error .outOfFuel
  | fuel + 1, node, node_is_leaf, t => do
    let sp ← splitNode node t
    let t1 := { sp.2.2.2 with split_count := sp.2.2.2.split_count + 1 }
    let p := if node_is_leaf then sp.1 else { sp.1 with is_leaf := false }
    let l := if node_is_leaf then sp.2.1 else { sp.2.1 with is_leaf := false }
    let r := if node_is_leaf then sp.2.2.1 else { sp.2.2.1 with is_leaf := false }
    let t2 := if p.page_parent = none ∨ p.page_parent = some 0 then
        { t1 with root_page_id := p.page_offset, root_node := some p }
      else t1
    let m1 ← putPage p.page_offset p t2.mem
    let m2 ← putPage l.page_offset l m1
    let m3 ← putPage r.page_offset r m2
    let t3 := { t2 with mem := m3 }
    if pyLen (serialize p) ≤ page_max_size then .ok (none, t3)
    else splitLoop fuel p false t3

/-- `BPlusTree.insert`.  The branch for a missing root and the split
path have no `return` statement, so they yield Python `None`; only the
no-split path returns `True`. -/
def insertOp (fuel : Nat) (key : Int) (v : Val) (t : STree) :
    Except PyErr (Option Bool × STree) :=
  match t.root_node with
  | none => do
    let leaf := { freshNode (t.mem.page_count + 1) none true with
      keys := [key],
      values := [v] }
    let m1 ← putPage leaf.page_offset leaf
      { t.mem with page_count := t.mem.page_count + 1 }
    .ok (none, { t with mem := m1, root_node := some leaf })
  | some root => do
    let d ← descendInsert fuel key root t.mem
    let node := d.1
    let t1 := { t with mem := d.2 }
    let node1 ← (if key ∈ node.keys then do
        let vs ← pySet node.values ((pyIndexOf node.keys key : Nat) : Int) v
        Except.ok { node with values := vs, is_changed := true }
      else
        Except.ok { node with
          keys := pyInsertAt node.keys (findLastLeq node.keys key + 1) key,
          values := pyInsertAt node.values (findLastLeq node.keys key + 1) v,
          is_changed := true })
    let m1 ← putPage node1.page_offset node1 t1.mem
    -- when the root is a leaf, `node` is the `self.root_node` object
    -- itself, so the in-place mutation is visible through that attribute
    let t2 := { t1 with
      mem := m1,
      root_node := if root.is_leaf then some node1 else t1.root_node }
    if pyLen (serialize node1) ≤ page_max_size then .ok (some true, t2)
    else splitLoop fuel node1 true t2

/-- `BPlusTree.__adjust_root`.  The collapse branch fires on a *leaf*
root with exactly one key (treating its payload as a page id); an
internal root falls through unchanged with `False`. -/
def adjustRoot (root : Node) (t : STree) : Except PyErr (Bool × Node × STree) :=
  if root.is_leaf ∧ root.keys.length = 1 then do
    let v ← pyIdx root.values 0
    let r ← getPageVal v t.mem
    let child := r.1
    let root1 := { root with
      page_parent := none,
      page_prev := child.page_prev,
      page_next := child.page_next,
      keys := child.keys,
      values := child.values,
      is_leaf := child.is_leaf,
      is_changed := true }
    .ok (false, root1,
      { t with
        mem := silentUpdate r.2 root.page_offset root1,
        root_node := some root1 })
  else if root.is_leaf ∧ root.keys.length = 0 then
    .ok (true, root, t)
  else
    .ok (false, root, t)

/-- Common tail of `BPlusTree.__redistribute`: the mutated parent
object lives in the cache (mutated in place, never written through
`put_page`), the three assertions run, and `node`/`brother` are
written back. -/
def redistributeTail (node brother p : Node) (m : Mem) (t : STree) :
    Except PyErr (Bool × Node × Node × STree) := do
  let m1 := silentUpdate m p.page_offset p
  if ¬ (pyLen (serialize node) ≤ page_max_size) then .error .assertionError
  else if ¬ (pyLen (serialize brother) ≤ page_max_size) then .error .assertionError
  else if ¬ (1 ≤ node.keys.length) then .error .assertionError
  else do
    let m2 ← putPage node.page_offset node m1
    let m3 ← putPage brother.page_offset brother m2
    .ok (true, node, brother, { t with mem := m3 })

/-- `BPlusTree.__redistribute`: move one key-value pair from `brother`
to `node`, updating the corresponding routing key in the parent. -/
def redistribute (node brother : Node) (t : STree) :
    Except PyErr (Bool × Node × Node × STree) := do
  let pid ← (match node.page_parent with
    | some p => Except.ok p
    | none => Except.error PyErr.valueError)
  let pr ← getPage pid t.mem
  let p := pr.1
  let pv ← valuesAsInts p.values
  let index := findLastLeq pv (brother.page_offset : Int)
  let c1 ← pyIdx p.keys (index + 1)
  let nk0 ← pyIdx node.keys 0
  if c1 = nk0 then do
    let pk ← pyPop brother.keys (-1)
    let pvv ← pyPop brother.values (-1)
    let node1 := { node with
      keys := pyInsertAt node.keys 0 pk.1,
      values := pyInsertAt node.values 0 pvv.1 }
    let brother1 := { brother with keys := pk.2, values := pvv.2 }
    let h0 ← pyIdx node1.keys 0
    let pks ← pySet p.keys (index + 1) h0
    redistributeTail node1 brother1 { p with keys := pks } pr.2 t
  else do
    let c2 ← pyIdx p.keys (index - 1)
    if c2 = nk0 then do
      let pk ← pyPop brother.keys 0
      let pvv ← pyPop brother.values 0
      let node1 := { node with
        keys := node.keys ++ [pk.1],
        values := node.values ++ [pvv.1] }
      let brother1 := { brother with keys := pk.2, values := pvv.2 }
      let b0 ← pyIdx brother1.keys 0
      let pks ← pySet p.keys index b0
      redistributeTail node1 brother1 { p with keys := pks } pr.2 t
    else
      redistributeTail node brother p pr.2 t

/-- Write-back tail of `BPlusTree.__coalesce_or_redistribute` for a
selected sibling: both objects are marked dirty and written back, and
the merge decision is the return value. -/
def finishPair (node brother : Node) (is_merge : Bool) (t : STree) :
    Except PyErr (Bool × Node × STree) := do
  let node1 := { node with is_changed := true }
  let brother1 := { brother with is_changed := true }
  let m1 ← putPage node1.page_offset node1 t.mem
  let m2 ← putPage brother1.page_offset brother1 m1
  .ok (is_merge, node1, { t with mem := m2 })

mutual

/-- `BPlusTree.__coalesce_or_redistribute`.  A root is handed to
`__adjust_root`.  Otherwise the sibling test
`node.page_prev is not None or not node.page_prev <= 0` short-circuits
on a present left sibling, and on an absent one evaluates
`None <= 0`, raising `TypeError` — the `elif` for the right sibling is
unreachable. -/
def coalesceOrRedistribute : Nat → Node → STree → Except PyErr (Bool × Node × STree)
  | 0, _, _ => .error .outOfFuel
  | fuel + 1, node, t =>
    if node.is_root then
      adjustRoot node t
    else if node.page_prev ≠ none ∨ node.page_next ≠ none then
      match node.page_prev with
      | some pv => do
        let br ← getPage pv t.mem
        let t1 := { t with mem := br.2 }
        if node.page_parent = br.1.page_parent then
          withBrother fuel node (some br.1) t1
        else
          withBrother fuel node none t1
      | none => .error .typeError
    else
      withBrother fuel node none t

/-- Block `if brother is not None:` of
`BPlusTree.__coalesce_or_redistribute`, plus the final `return False`
when no sibling qualified. -/
def withBrother : Nat → Node → Option Node → STree → Except PyErr (Bool × Node × STree)
  | _, node, none, t => .ok (false, node, t)
  | 0, _, some _, _ => .error .outOfFuel
  | fuel + 1, node, some brother, t =>
    if pyLen (serialize node) + pyLen (serialize brother) ≤ page_max_size then do
      let r ← coalesce fuel node brother t
      finishPair r.2.1 r.2.2.1 true r.2.2.2
    else do
      let r ← redistribute node brother t
      finishPair r.2.1 r.2.2.1 false r.2.2.2

/-- `BPlusTree.__coalesce`: orient `(l, r)` (swapping when the sibling
sits to the right), append `r`'s records onto `l`, bypass `r` in the
forward chain, remove the routing entry found through
`find_last_leq(parent.values, r.page_offset)` from the parent, bump
`merge_count`, and recurse on the parent.  The `# TODO: deletePage`
marks the missing `free_page` call: no page id is ever pushed onto
`empty_page_count`. -/
def coalesce : Nat → Node → Node → STree → Except PyErr (Bool × Node × Node × STree)
  | 0, _, _, _ => .error .outOfFuel
  | fuel + 1, node, brother, t => do
    let swap := node.page_next = some brother.page_offset
    let l := if swap then brother else node
    let r := if swap then node else brother
    if ¬ (l.page_parent = r.page_parent) then .error .assertionError else do
    let pid ← (match l.page_parent with
      | some p => Except.ok p
      | none => Except.error PyErr.valueError)
    let pres ← getPage pid t.mem
    let p := pres.1
    if ¬ (pyLen (serialize l) + pyLen (serialize r) ≤ page_max_size) then
      .error .assertionError else do
    let pv ← valuesAsInts p.values
    let rIndex := findLastLeq pv (r.page_offset : Int)
    let l1 := { l with
      keys := l.keys ++ r.keys,
      values := l.values ++ r.values,
      page_next := r.page_next }
    let m1 := silentUpdate pres.2 l1.page_offset l1
    let pk ← pyPop p.keys rIndex
    let pvv ← pyPop p.values rIndex
    let p1 := { p with keys := pk.2, values := pvv.2 }
    let m2 ← putPage p1.page_offset p1 m1
    let t1 := { t with mem := m2, merge_count := t.merge_count + 1 }
    let res ← coalesceOrRedistribute fuel p1 t1
    .ok (res.1, if swap then r else l1, if swap then l1 else r, res.2.2)

end

/-- Descent loop of `BPlusTree.delete` (no `try/except` here: errors
propagate). -/
def delDescend : Nat → Int → Node → Mem → Except PyErr (Node × Mem)
  | 0, _, _, _ => .error .outOfFuel
  | fuel + 1, key, node, m =>
    if node.is_leaf then .ok (node, m)
    else do
      let vv ← pyIdx node.values (findLastLeq node.keys key)
      let r ← getPageVal vv m
      delDescend fuel key r.1 r.2

/-- `BPlusTree.delete`: descend to the leaf; when `keys[index] != key`
return `0` with no mutation; otherwise pop the pair, coalesce or
redistribute when the leaf falls under `default_merge_size`, mark the
leaf dirty, write it back, and return `1`. -/
def deleteOp (fuel : Nat) (key : Int) (t : STree) : Except PyErr (Nat × STree) := do
  let root ← (match t.root_node with
    | some r => Except.ok r
    | none => Except.error PyErr.attributeError)
  let d ← delDescend fuel key root t.mem
  let node := d.1
  let t1 := { t with mem := d.2 }
  let kv ← pyIdx node.keys (findLastLeq node.keys key)
  if kv ≠ key then .ok (0, t1)
  else do
    let pk ← pyPop node.keys (findLastLeq node.keys key)
    let pvv ← pyPop node.values (findLastLeq node.keys key)
    let node1 := { node with keys := pk.2, values := pvv.2 }
    -- when the root is a leaf, `node` is the `self.root_node` object
    let t2 := { t1 with
      mem := silentUpdate t1.mem node1.page_offset node1,
      root_node := if root.is_leaf then some node1 else t1.root_node }
    let rr ← (if pyLen (serialize node1) < default_merge_size then do
        let cr ← coalesceOrRedistribute fuel node1 t2
        Except.ok (cr.2.1, cr.2.2)
      else Except.ok (node1, t2))
    let node2 := { rr.1 with is_changed := true }
    let m2 ← putPage node2.page_offset node2 rr.2.mem
    .ok (1, { rr.2 with
      mem := m2,
      root_node := if root.is_leaf then some node2 else rr.2.root_node })

/-! Concrete runs used to settle the claims. -/

/-- A 200-byte payload (`"a" * 200`). -/
def valA : Val := .str (List.replicate 200 97)

/-- A distinct 200-byte payload (`"b" * 200`). -/
def valB : Val := .str (List.replicate 200 98)

/-- Apply `insert` to each key of a list, all with the same payload. -/
def insertSeq (fuel : Nat) (keys : List Int) (v : Val) (t : STree) :
    Except PyErr STree :=
  match keys with
  | [] => .ok t
  | k :: r => do
    let s ← insertOp fuel k v t
    insertSeq fuel r v s.2

/-- The keys `1, 2, ..., 29`, pairwise distinct and distinct from `0`. -/
def keyList : List Int := (List.range 29).map (fun n => (n : Int) + 1)

/-- Run of claim C1's failing input: on a fresh tree insert keys
`1..29` with payload `valA` (two leaf splits occur along the way),
then insert key `0` with payload `valB`, then `get(0)`. -/
def c1Result : Except PyErr (Option Val) := do
  let t1 ← insertSeq 9 keyList valA (freshTree 100)
  let r ← insertOp 9 0 valB t1
  let g ← getOp 9 0 r.2
  .ok g.1

/-- Node `N` for the split run of claim C3: a leaf that has just been
filled past the page bound, with a right neighbour (page 2). -/
def splN : Node where
  page_offset := 1
  page_parent := some 3
  page_prev := none
  page_next := some 2
  keys := [10, 12]
  values := [.str [97], .str [98]]
  is_leaf := true
  is_changed := true

/-- The old right neighbour `M` (page 2) of `splN`. -/
def splM : Node where
  page_offset := 2
  page_parent := some 3
  page_prev := some 1
  page_next := none
  keys := [20]
  values := [.str [99]]
  is_leaf := true
  is_changed := false

/-- The parent (root, page 3) of `splN` and `splM`. -/
def splP : Node where
  page_offset := 3
  page_parent := none
  page_prev := none
  page_next := none
  keys := [10, 20]
  values := [.pid 1, .pid 2]
  is_leaf := false
  is_changed := true

/-- Tree state around `splN`: pages 2 and 3 are cached. -/
def splT : STree where
  root_page_id := 3
  root_node := some splP
  mem := { capacity := 100, cache := [(2, splM), (3, splP)], disk := [],
           empty_page_count := [], page_count := 3 }
  split_count := 1
  merge_count := 0
  node_count := 3

/-- Internal root with a single child, for claim C4. -/
def arRoot : Node where
  page_offset := 3
  page_parent := none
  page_prev := none
  page_next := none
  keys := [10]
  values := [.pid 2]
  is_leaf := false
  is_changed := false

/-- The single child (page 2) of `arRoot`. -/
def arChild : Node where
  page_offset := 2
  page_parent := some 3
  page_prev := none
  page_next := none
  keys := [10]
  values := [.str [97]]
  is_leaf := true
  is_changed := false

/-- Tree state with the single-child internal root `arRoot`. -/
def arT : STree where
  root_page_id := 3
  root_node := some arRoot
  mem := { capacity := 100, cache := [(2, arChild), (3, arRoot)], disk := [],
           empty_page_count := [], page_count := 3 }
  split_count := 1
  merge_count := 1
  node_count := 2

/-- Left leaf (page 1) for the coalesce run of claim C5. -/
def coL : Node where
  page_offset := 1
  page_parent := some 3
  page_prev := none
  page_next := some 2
  keys := [10]
  values := [.str [97]]
  is_leaf := true
  is_changed := false

/-- Underfilled leaf (page 2) handed to `__coalesce` for claim C5. -/
def coN : Node where
  page_offset := 2
  page_parent := some 3
  page_prev := some 1
  page_next := none
  keys := [20]
  values := [.str [98]]
  is_leaf := true
  is_changed := true

/-- Root (page 3) routing to `coL` and `coN`. -/
def coP : Node where
  page_offset := 3
  page_parent := none
  page_prev := none
  page_next := none
  keys := [10, 20]
  values := [.pid 1, .pid 2]
  is_leaf := false
  is_changed := false

/-- Tree state for the coalesce run of claim C5. -/
def coT : STree where
  root_page_id := 3
  root_node := some coP
  mem := { capacity := 100, cache := [(1, coL), (2, coN), (3, coP)], disk := [],
           empty_page_count := [], page_count := 3 }
  split_count := 1
  merge_count := 0
  node_count := 3

/-- Node with no left sibling but a right sibling (page 2), for the
counterexample of claim C6; its parent matches page 2's parent in
`coT`, so the claim says the right sibling must be chosen. -/
def noPrevN : Node where
  page_offset := 1
  page_parent := some 3
  page_prev := none
  page_next := some 2
  keys := [10]
  values := [.str [97]]
  is_leaf := true
  is_changed := false

/-- The keys `1, 2, ..., 19`; with 200-byte payloads they fill the
root leaf to just under the page bound. -/
def c8Keys : List Int := (List.range 19).map (fun n => (n : Int) + 1)

/-- Run of claim C8's failing input: inserting keys `1..19` fills the
root leaf; the 20th insert overflows it, splits, and is the value
whose return is reported. -/
def c8Result : Except PyErr (Option Bool) := do
  let t1 ← insertSeq 9 c8Keys valA (freshTree 100)
  let r ← insertOp 9 20 valA t1
  .ok r.1

/-- An empty memory manager with cache capacity `0`. -/
def mem0 : Mem where
  capacity := 0
  cache := []
  disk := []
  empty_page_count := []
  page_count := 1

/-- A dirty cached node used by the eviction witness. -/
def dirtyCached : Node where
  page_offset := 5
  page_parent := some 3
  page_prev := none
  page_next := none
  keys := [7]
  values := [.str [100]]
  is_leaf := true
  is_changed := true

/-- One-slot memory manager holding only `dirtyCached`. -/
def evictMem : Mem where
  capacity := 1
  cache := [(5, dirtyCached)]
  disk := []
  empty_page_count := []
  page_count := 5

/-- Non-root node with neither sibling pointer set. -/
def bothNoneN : Node where
  page_offset := 1
  page_parent := some 3
  page_prev := none
  page_next := none
  keys := [10]
  values := [.str [97]]
  is_leaf := true
  is_changed := false

/-- Result of splitting `splN` in `splT` (the run is successful, so
the default is never used). -/
def splRes : Node × Node × Node × STree :=
  ((splitNode splN splT).toOption).getD (splN, splN, splN, splT)

/-- Result of a no-split insert on a fresh tree (the run succeeds, so
the default is never used). -/
def c8wRes : Option Bool × STree :=
  ((insertOp 9 5 (.str [97]) (freshTree 100)).toOption).getD (none, freshTree 100)

/-- A one-record root leaf used by the delete witness. -/
def delLeaf : Node where
  page_offset := 1
  page_parent := none
  page_prev := none
  page_next := none
  keys := [5]
  values := [.str [101]]
  is_leaf := true
  is_changed := false

/-- Tree whose root is `delLeaf`. -/
def delT : STree where
  root_page_id := 1
  root_node := some delLeaf
  mem := { capacity := 100, cache := [(1, delLeaf)], disk := [],
           empty_page_count := [], page_count := 1 }
  split_count := 0
  merge_count := 0
  node_count := 1

/-- A leaf payload that survives the codec: a nonempty byte string with
no zero byte (the encoder writes a zero as the record separator, and a
`b""` value vanishes into the separator run). -/
def valIsGoodStr : Val → Bool
  | .str s => !s.isEmpty && s.all (fun b => b != 0)
  | .pid _ => false

/-- An internal-node value: a child page id. -/
def valIsPid : Val → Bool
  | .pid _ => true
  | .str _ => false

/-- A root leaf with one record: `page_parent` is `None` in memory. -/
def rtNode : Node where
  page_offset := 7
  page_parent := none
  page_prev := some 3
  page_next := none
  keys := [5]
  values := [.str [97, 98]]
  is_leaf := true
  is_changed := true

/-- Node used to instantiate the amended round-trip: a non-root leaf
whose pointer fields are all present. -/
def rtwNode : Node where
  page_offset := 2
  page_parent := some 1
  page_prev := some 0
  page_next := some 0
  keys := [-5, 10]
  values := [.str [97], .str [98, 99]]
  is_leaf := true
  is_changed := true

theorem flqGo_fuel_irrelevant (arr : List Int) (target : Int) :
    ∀ fuel fuel' : Nat, ∀ left right acc : Int,
      (right + 1 - left : Int) < fuel → (right + 1 - left : Int) < fuel' →
      flqGo arr target fuel left right acc = flqGo arr target fuel' left right acc := by
  intro fuel
  induction fuel with
  | zero =>
    intro fuel' left right acc h h'
    have hlr : ¬ left ≤ right := by omega
    cases fuel' with
    | zero => rfl
    | succ f' => rw [flqGo, flqGo, if_neg hlr]
  | succ f ih =>
    intro fuel' left right acc h h'
    cases fuel' with
    | zero =>
      have hlr : ¬ left ≤ right := by omega
      rw [flqGo, flqGo, if_neg hlr]
    | succ f' =>
      rw [flqGo, flqGo]
      by_cases hlr : left ≤ right
      · rw [if_pos hlr, if_pos hlr]
        have hmid1 : left ≤ (left + right) / 2 := by omega
        have hmid2 : (left + right) / 2 ≤ right := by omega
        by_cases hc : arr.getD ((left + right) / 2).toNat 0 ≤ target
        · rw [if_pos hc, if_pos hc]
          exact ih f' _ _ _ (by omega) (by omega)
        · rw [if_neg hc, if_neg hc]
          exact ih f' _ _ _ (by omega) (by omega)
      · rw [if_neg hlr, if_neg hlr]

theorem flqGo_bounds (arr : List Int) (target : Int) :
    ∀ fuel : Nat, ∀ left right acc : Int, 0 ≤ left →
      right ≤ (arr.length : Int) - 1 →
      -1 ≤ acc → acc ≤ (arr.length : Int) - 1 →
      -1 ≤ flqGo arr target fuel left right acc ∧
        flqGo arr target fuel left right acc ≤ (arr.length : Int) - 1 := by
  intro fuel
  induction fuel with
  | zero => intro left right acc h0 hr ha ha2; rw [flqGo]; omega
  | succ f ih =>
    intro left right acc h0 hr ha ha2
    rw [flqGo]
    by_cases hlr : left ≤ right
    · rw [if_pos hlr]
      have hmid1 : left ≤ (left + right) / 2 := by omega
      have hmid2 : (left + right) / 2 ≤ right := by omega
      by_cases hc : arr.getD ((left + right) / 2).toNat 0 ≤ target
      · rw [if_pos hc]
        exact ih _ _ _ (by omega) hr (by omega) (by omega)
      · rw [if_neg hc]
        exact ih _ _ _ h0 (by omega) ha ha2
    · rw [if_neg hlr]
      omega

theorem findLastLeq_bounds (arr : List Int) (target : Int) :
    -1 ≤ findLastLeq arr target ∧
      findLastLeq arr target ≤ (arr.length : Int) - 1 :=
  flqGo_bounds arr target (arr.length + 1) 0 ((arr.length : Int) - 1) (-1)
    (by omega) (by omega) (by omega) (by omega)

theorem pyIdx_ok_of_bounds {α : Type} (l : List α) (i : Int)
    (h1 : -1 ≤ i) (h2 : i ≤ (l.length : Int) - 1) (h3 : l ≠ []) :
    ∃ a, pyIdx l i = .ok a ∧ a ∈ l := by
  have hlen : 1 ≤ l.length := by
    cases l with
    | nil => exact absurd rfl h3
    | cons a r => simp
  have hb : 0 ≤ pyNorm l.length i ∧ pyNorm l.length i < l.length := by
    unfold pyNorm
    split <;> omega
  rw [pyIdx, dif_pos hb]
  exact ⟨_, rfl, List.get_mem l _ _⟩

theorem pyIdx_mem {α : Type} {l : List α} {i : Int} {a : α}
    (h : pyIdx l i = .ok a) : a ∈ l := by
  rw [pyIdx] at h
  split at h
  · simp only [Except.ok.injEq] at h
    subst h
    exact List.get_mem l _ _
  · exact absurd h (by simp)

theorem pyLenAux_eq {α : Type} :
    ∀ (l : List α) (acc : Nat), pyLenAux l acc = l.length + acc := by
  intro l
  induction l with
  | nil => intro acc; rw [pyLenAux]; simp
  | cons a r ih =>
    intro acc
    match acc with
    | 0 => rw [pyLenAux, ih]; simp
    | n + 1 => rw [pyLenAux, ih]; simp; omega

theorem pyLen_eq {α : Type} (l : List α) : pyLen l = l.length := by
  rw [pyLen, pyLenAux_eq]
  omega

/-- C1: after inserting the pairwise distinct keys `1..29` and `0` into
a fresh tree, `get(0)` returns `None` instead of the stored payload:
`find_last_leq` yields `-1` for a key below every routing key, Python's
negative indexing then descends into the *last* child, and the splits
have left a stale routing layout, so the lookup misses the leaf that
holds key `0`.  This refutes the claim on the code as written. -/
theorem c1_inserted_key_lost : c1Result = .ok none := by rfl

/-- C2: on a freshly created tree (whose root is an empty leaf),
`get(1)` raises `IndexError` instead of returning `None`: the leaf
branch reads `node.keys[-1]` on an empty list. -/
theorem c2_get_on_empty_root_raises :
    getOp 9 1 (freshTree 100) = .error .indexError := by rfl

/-- C3: counterexample.  Splitting `splN` (whose `next_id` is page 2)
allocates the sibling as page 4 and rewires `R.prev_id = 1`,
`R.next_id = 2`, `N.next_id = 4`, but the old right neighbour M
(page 2) still has `prev_id = 1`: `__split_node` never loads `M` to
update its `prev_id`, so the backward leaf link is stale and the
doubly-linked-list invariant breaks. -/
theorem c3_split_leaves_old_neighbour_stale :
    (splitNode splN splT).map (fun res =>
      (res.2.2.1.page_offset, res.2.2.1.page_prev, res.2.2.1.page_next,
       res.2.1.page_next,
       (lookupPage res.2.2.2.mem.cache 2).map Node.page_prev)) =
    .ok (4, some 1, some 2, some 4, some (some 1)) := by rfl

/-- C4: `__adjust_root` on an internal root with exactly one child
leaves the root, the cache and the free list completely unchanged and
returns `False` — the collapse branch tests `is_leaf` (contradicting
the function's own docstring), so the claimed collapse of an internal
single-child root never happens. -/
theorem c4_adjust_root_ignores_internal_single_child :
    adjustRoot arRoot arT = .ok (false, arRoot, arT) := by rfl

/-- C5: coalescing `coN` with its left sibling `coL` removes the
routing entry of the consumed node (page 1) from the parent (the root
keeps key `20` and child `2` only), bumps `merge_count`, and recurses
on the parent — but the free list `empty_page_count` stays empty: the
consumed page id is never freed (`# TODO: deletePage` in the source),
refuting the claim's free-list clause. -/
theorem c5_coalesce_never_frees_page :
    (coalesce 9 coN coL coT).map (fun res =>
      (res.2.2.2.mem.empty_page_count, res.2.2.2.merge_count,
       (lookupPage res.2.2.2.mem.cache 3).map Node.keys,
       (lookupPage res.2.2.2.mem.cache 3).map Node.values)) =
    .ok ([], 1, some [20], some [.pid 2]) := by rfl

/-- C6: counterexample.  For an underfilled non-root node whose
`prev_id` is `None` and whose `next_id` names a cached sibling with the
same parent, `__coalesce_or_redistribute` raises `TypeError` instead of
selecting the right sibling: the guard
`node.page_prev is not None or not node.page_prev <= 0` evaluates
`None <= 0`. -/
theorem c6_right_sibling_raises_type_error :
    coalesceOrRedistribute 9 noPrevN coT = .error .typeError := by rfl

/-- C8: counterexample.  The 20th insert stores its pair and splits the
leaf, but `insert` only executes `return True` on the no-split path;
the split loop ends by falling off the function, so this successful
insert returns Python `None`, not `True`. -/
theorem c8_insert_with_split_returns_none : c8Result = .ok none := by rfl

/-- C7: counterexample.  With capacity `0` the empty cache is at
capacity and the page id is not cached, yet `put_page` raises
`KeyError` (`popitem` on an empty `OrderedDict`) instead of evicting
an entry and inserting the page. -/
theorem c7_put_page_capacity_zero_raises :
    putPage 1 noPrevN mem0 = .error .keyError := by rfl

/-- C7: amended.  When `put_page` receives an id not in the cache and
the cache is at a *nonzero* capacity (head entry `e`, so one entry
exists), exactly the least-recently-used entry `e` is dropped, its
serialization is written to its disk slot iff its dirty flag is set,
and the new entry is appended at the most-recently-used end. -/
theorem c7_put_page_eviction_amended (id : Nat) (page : Node) (m : Mem)
    (e : Nat × Node) (rest : List (Nat × Node))
    (h1 : lookupPage m.cache id = none)
    (h2 : m.cache = e :: rest)
    (h3 : m.cache.length = m.capacity) :
    putPage id page m = .ok { m with
      cache := rest ++ [(id, page)],
      disk := if e.2.is_changed then
          storeDisk m.disk e.2.page_offset (serialize e.2)
        else m.disk } := by
  obtain ⟨cap, cache, disk, free, pc⟩ := m
  simp only [Mem.mk.injEq] at h2 h3 ⊢
  subst h2
  rw [putPage]
  simp only [h1, Option.isSome_none, Bool.false_eq_true, if_false, writeToDisk]
  rw [if_pos (by omega)]
  cases hc : e.2.is_changed <;> simp [hc]

theorem c7_put_page_eviction_amended_witness :
    putPage 7 noPrevN evictMem = .ok { evictMem with
      cache := [] ++ [(7, noPrevN)],
      disk := if dirtyCached.is_changed then
          storeDisk evictMem.disk dirtyCached.page_offset (serialize dirtyCached)
        else evictMem.disk } :=
  c7_put_page_eviction_amended 7 noPrevN evictMem (5, dirtyCached) [] rfl rfl rfl

/-- C6: amended.  For an underfilled non-root node: with no siblings at
all the operation returns `False` leaving the state unchanged; with no
left sibling but a right one it raises `TypeError` (`None <= 0`), never
consulting the right sibling; with a left sibling, that sibling is
fetched and used iff it shares the parent — when the parents differ the
operation returns `False` having only reordered the cache, again never
trying the right sibling. -/
theorem c6_sibling_selection_amended (fuel : Nat) (node : Node) (t : STree)
    (hroot : node.page_parent ≠ none) :
    (node.page_prev = none → node.page_next = none →
      coalesceOrRedistribute (fuel + 1) node t = .ok (false, node, t)) ∧
    (node.page_prev = none → node.page_next ≠ none →
      coalesceOrRedistribute (fuel + 1) node t = .error .typeError) ∧
    (∀ p b m1, node.page_prev = some p → getPage p t.mem = .ok (b, m1) →
      b.page_parent ≠ node.page_parent →
      coalesceOrRedistribute (fuel + 1) node t =
        .ok (false, node, { t with mem := m1 })) ∧
    (∀ p b m1, node.page_prev = some p → getPage p t.mem = .ok (b, m1) →
      b.page_parent = node.page_parent →
      coalesceOrRedistribute (fuel + 1) node t =
        withBrother fuel node (some b) { t with mem := m1 }) := by
  have hr : node.is_root = false := by
    rw [Node.is_root]
    exact decide_eq_false hroot
  have hbind : ∀ {α β : Type} (a : α) (f : α → Except PyErr β),
      (Except.ok a >>= f) = f a := fun _ _ => rfl
  refine ⟨?_, ?_, ?_, ?_⟩
  · intro hp hn
    rw [coalesceOrRedistribute, hr]
    simp only [Bool.false_eq_true, if_false, hp, hn]
    rw [if_neg (by simp), withBrother]
  · intro hp hn
    rw [coalesceOrRedistribute, hr]
    simp only [Bool.false_eq_true, if_false, hp]
    rw [if_pos (Or.inr hn)]
  · intro p b m1 hp hget hne
    rw [coalesceOrRedistribute, hr]
    simp only [Bool.false_eq_true, if_false, hp]
    rw [if_pos (Or.inl (by simp))]
    rw [hget, hbind]
    rw [if_neg (Ne.symm hne), withBrother]
  · intro p b m1 hp hget heq
    rw [coalesceOrRedistribute, hr]
    simp only [Bool.false_eq_true, if_false, hp]
    rw [if_pos (Or.inl (by simp))]
    rw [hget, hbind]
    rw [if_pos heq.symm]

theorem c6_sibling_selection_amended_witness :
    coalesceOrRedistribute 9 bothNoneN coT = .ok (false, bothNoneN, coT) :=
  (c6_sibling_selection_amended 8 bothNoneN coT (by decide)).1 rfl rfl

theorem exbind_ok {α β : Type} (a : α) (f : α → Except PyErr β) :
    (Except.ok a >>= f : Except PyErr β) = f a := rfl

theorem exbind_err {α β : Type} (e : PyErr) (f : α → Except PyErr β) :
    (Except.error e >>= f : Except PyErr β) = .error e := rfl

theorem exbind_ok_inv {α β : Type} {x : Except PyErr α}
    {f : α → Except PyErr β} {b : β} (h : (x >>= f) = .ok b) :
    ∃ a, x = .ok a ∧ f a = .ok b := by
  cases x with
  | ok a => exact ⟨a, rfl, h⟩
  | error e => rw [exbind_err] at h; exact absurd h (by simp)

theorem ite_except_inv {γ : Type} {c : Prop} [Decidable c]
    {a b : Except PyErr γ} {x : γ}
    (h : (if c then a else b) = .ok x) :
    (c ∧ a = .ok x) ∨ (¬ c ∧ b = .ok x) := by
  by_cases hc : c
  · rw [if_pos hc] at h
    exact Or.inl ⟨hc, h⟩
  · rw [if_neg hc] at h
    exact Or.inr ⟨hc, h⟩

theorem lookupPage_append_single_ne (c : List (Nat × Node)) (pid id : Nat)
    (b : Node) (h : pid ≠ id) :
    lookupPage (c ++ [(pid, b)]) id = lookupPage c id := by
  induction c with
  | nil => simp [lookupPage, h]
  | cons e r ih =>
    obtain ⟨i, n⟩ := e
    rw [List.cons_append, lookupPage, lookupPage]
    split
    · rfl
    · exact ih

theorem lookupPage_removeId_ne (c : List (Nat × Node)) (pid id : Nat)
    (h : pid ≠ id) :
    lookupPage (removeId c pid) id = lookupPage c id := by
  induction c with
  | nil => rw [removeId]
  | cons e r ih =>
    obtain ⟨i, n⟩ := e
    rw [removeId, lookupPage]
    by_cases hip : i = pid
    · rw [if_pos hip, if_neg (by omega)]
    · rw [if_neg hip, lookupPage]
      split
      · rfl
      · exact ih

/-- Behaviour of `__split_node` on any successful run: the sibling's
backward pointer names the split node, its forward pointer inherits the
split node's, the split node now points at the sibling; the tree
counters and root attributes are untouched by `__split_node` itself;
and the cache is unchanged for a root split, only reordered for a
cached parent — no other page (in particular not the old right
neighbour) is ever written. -/
theorem splitNode_facts (node : Node) (t : STree)
    (res : Node × Node × Node × STree)
    (h : splitNode node t = .ok res) :
    res.2.2.1.page_prev = some node.page_offset ∧
    res.2.2.1.page_next = node.page_next ∧
    res.2.1.page_next = some res.2.2.1.page_offset ∧
    res.2.2.2.split_count = t.split_count ∧
    res.2.2.2.root_page_id = t.root_page_id ∧
    res.2.2.2.root_node = t.root_node ∧
    (node.page_offset = t.root_page_id → res.2.2.2.mem.cache = t.mem.cache) ∧
    (∀ pid b, node.page_offset ≠ t.root_page_id → node.page_parent = some pid →
      lookupPage t.mem.cache pid = some b →
      res.2.2.2.mem.cache = removeId t.mem.cache pid ++ [(pid, b)]) := by
  rw [splitNode] at h
  by_cases hR : node.page_offset = t.root_page_id
  · rw [if_pos hR, exbind_ok] at h
    obtain ⟨top1, htop1, h⟩ := exbind_ok_inv h
    simp only [Except.ok.injEq] at h
    subst h
    refine ⟨rfl, rfl, rfl, rfl, rfl, rfl, fun _ => rfl, fun pid b hR2 _ _ => absurd hR hR2⟩
  · rw [if_neg hR] at h
    cases hp : node.page_parent with
    | none =>
      rw [hp] at h
      rw [exbind_err, exbind_err] at h
      exact absurd h (by simp)
    | some pid =>
      rw [hp] at h
      obtain ⟨topres, htop, h⟩ := exbind_ok_inv h
      obtain ⟨pid2, hpid2, htop⟩ := exbind_ok_inv htop
      simp only [Except.ok.injEq] at hpid2
      subst hpid2
      obtain ⟨gp, hget, htop⟩ := exbind_ok_inv htop
      simp only [Except.ok.injEq] at htop
      subst htop
      obtain ⟨top1, htop1, h⟩ := exbind_ok_inv h
      simp only [Except.ok.injEq] at h
      subst h
      refine ⟨rfl, rfl, rfl, rfl, rfl, rfl, fun hR2 => absurd hR2 hR, ?_⟩
      intro pid2 b _ hp2 hl
      obtain rfl : pid = pid2 := Option.some.inj hp2
      rw [getPage] at hget
      simp only at hget
      rw [hl] at hget
      simp only [Except.ok.injEq] at hget
      rw [← hget]

/-- C3: amended claim.  On any successful split, R's backward pointer
names N, R's forward pointer inherits N's, N now points at R — and
when the parent is cached (or N is the root), every page other than
the parent keeps its cache entry unchanged; `__split_node` never
updates the old right neighbour's `prev_id`. -/
theorem c3_split_links_amended (node : Node) (t : STree)
    (res : Node × Node × Node × STree)
    (h : splitNode node t = .ok res)
    (hcached : node.page_offset = t.root_page_id ∨
      (∃ pid b, node.page_parent = some pid ∧
        lookupPage t.mem.cache pid = some b)) :
    res.2.2.1.page_prev = some node.page_offset ∧
    res.2.2.1.page_next = node.page_next ∧
    res.2.1.page_next = some res.2.2.1.page_offset ∧
    (∀ id : Nat, node.page_parent ≠ some id →
      lookupPage res.2.2.2.mem.cache id = lookupPage t.mem.cache id) := by
  have F := splitNode_facts node t res h
  refine ⟨F.1, F.2.1, F.2.2.1, ?_⟩
  intro id hid
  by_cases hR : node.page_offset = t.root_page_id
  · rw [F.2.2.2.2.2.2.1 hR]
  · rcases hcached with hR2 | ⟨pid, b, hp, hl⟩
    · exact absurd hR2 hR
    · have hpid : pid ≠ id := by
        intro hx
        subst hx
        exact hid hp
      rw [F.2.2.2.2.2.2.2 pid b hR hp hl,
          lookupPage_append_single_ne _ _ _ _ hpid,
          lookupPage_removeId_ne _ _ _ hpid]

theorem c3_split_links_amended_witness :
    splRes.2.2.1.page_prev = some splN.page_offset ∧
    splRes.2.2.1.page_next = splN.page_next ∧
    splRes.2.1.page_next = some splRes.2.2.1.page_offset ∧
    lookupPage splRes.2.2.2.mem.cache 2 = lookupPage splT.mem.cache 2 := by
  have H := c3_split_links_amended splN splT splRes (by rfl)
    (Or.inr ⟨3, splP, rfl, rfl⟩)
  exact ⟨H.1, H.2.1, H.2.2.1, H.2.2.2 2 (by decide)⟩

theorem splitLoop_none : ∀ fuel : Nat, ∀ (node : Node) (b : Bool) (t : STree)
    (r : Option Bool) (t' : STree),
    splitLoop fuel node b t = .ok (r, t') →
    r = none ∧ t.split_count < t'.split_count := by
  intro fuel
  induction fuel with
  | zero =>
    intro node b t r t' h
    rw [splitLoop] at h
    exact absurd h (by simp)
  | succ f ih =>
    intro node b t r t' h
    rw [splitLoop] at h
    obtain ⟨sp, hsp, h⟩ := exbind_ok_inv h
    obtain ⟨m1, hm1, h⟩ := exbind_ok_inv h
    obtain ⟨m2, hm2, h⟩ := exbind_ok_inv h
    obtain ⟨m3, hm3, h⟩ := exbind_ok_inv h
    have hc := (splitNode_facts _ _ _ hsp).2.2.2.1
    rcases ite_except_inv h with ⟨hfit, h⟩ | ⟨hfit, h⟩
    · simp only [Except.ok.injEq, Prod.mk.injEq] at h
      obtain ⟨hr, ht⟩ := h
      subst ht
      refine ⟨hr.symm, ?_⟩
      split <;> (try split) <;>
        (show t.split_count < sp.2.2.2.split_count + 1; omega)
    · have hrec := ih _ _ _ _ _ h
      refine ⟨hrec.1, lt_trans ?_ hrec.2⟩
      split <;> (try split) <;>
        (show t.split_count < sp.2.2.2.split_count + 1; omega)

/-- C8: amended claim.  A successful insert returns `True` or `None`,
never `False`; given a root object, it returns `True` exactly when no
split occurred (`split_count` unchanged) — the split path and the
missing-root path fall off the function and return `None`. -/
theorem c8_insert_return_amended (fuel : Nat) (key : Int) (v : Val)
    (t : STree) (r : Option Bool) (t' : STree)
    (h : insertOp fuel key v t = .ok (r, t')) :
    (r = some true ∨ r = none) ∧
    (t.root_node ≠ none → (r = some true ↔ t'.split_count = t.split_count)) := by
  rw [insertOp] at h
  cases hroot : t.root_node with
  | none =>
    rw [hroot] at h
    obtain ⟨m1, hm1, h⟩ := exbind_ok_inv h
    simp only [Except.ok.injEq, Prod.mk.injEq] at h
    exact ⟨Or.inr h.1.symm, fun hc => absurd rfl hc⟩
  | some root =>
    rw [hroot] at h
    obtain ⟨d, hd, h⟩ := exbind_ok_inv h
    obtain ⟨node1, hn1, h⟩ := exbind_ok_inv h
    obtain ⟨m1, hm1, h⟩ := exbind_ok_inv h
    rcases ite_except_inv h with ⟨hfit, h⟩ | ⟨hfit, h⟩
    · simp only [Except.ok.injEq, Prod.mk.injEq] at h
      obtain ⟨hr, ht⟩ := h
      subst ht
      refine ⟨Or.inl hr.symm, fun _ => ⟨fun _ => rfl, fun _ => hr.symm⟩⟩
    · have hs := splitLoop_none _ _ _ _ _ _ h
      refine ⟨Or.inr hs.1, fun _ => ⟨fun hx => ?_, fun hx => ?_⟩⟩
      · rw [hs.1] at hx
        exact absurd hx (by simp)
      · have h3 : t.split_count < t'.split_count := hs.2
        omega

theorem c8_insert_return_amended_witness :
    (c8wRes.1 = some true ∨ c8wRes.1 = none) ∧
    (c8wRes.1 = some true ↔ c8wRes.2.split_count = (freshTree 100).split_count) := by
  have H := c8_insert_return_amended 9 5 (.str [97]) (freshTree 100)
    c8wRes.1 c8wRes.2 (by rfl)
  exact ⟨H.1, H.2 (by decide)⟩

theorem lookupPage_mem {c : List (Nat × Node)} {id : Nat} {n : Node}
    (h : lookupPage c id = some n) : (id, n) ∈ c := by
  induction c with
  | nil => rw [lookupPage] at h; exact absurd h (by simp)
  | cons e r ih =>
    obtain ⟨i, n0⟩ := e
    rw [lookupPage] at h
    split at h
    · simp only [Option.some.injEq] at h
      subst h
      simp_all
    · exact List.mem_cons_of_mem _ (ih h)

theorem removeId_subset {c : List (Nat × Node)} {id : Nat} {p : Nat × Node}
    (h : p ∈ removeId c id) : p ∈ c := by
  induction c with
  | nil => rw [removeId] at h; exact absurd h (by simp)
  | cons e r ih =>
    obtain ⟨i, n0⟩ := e
    rw [removeId] at h
    split at h
    · exact List.mem_cons_of_mem _ h
    · rcases List.mem_cons.mp h with h1 | h1
      · exact h1 ▸ List.mem_cons_self _ _
      · exact List.mem_cons_of_mem _ (ih h1)

theorem decodePage_not_changed {raw : List Nat} {pc : Nat} {n : Node}
    {pc' : Nat} (h : decodePage raw pc = .ok (n, pc')) :
    n.is_changed = false := by
  rw [decodePage] at h
  rcases ite_except_inv h with ⟨_, h⟩ | ⟨_, h⟩
  · exact absurd h (by simp)
  rcases ite_except_inv h with ⟨_, h⟩ | ⟨_, h⟩
  · exact absurd h (by simp)
  rcases ite_except_inv h with ⟨_, h⟩ | ⟨_, h⟩
  · simp only [Except.ok.injEq, Prod.mk.injEq] at h
    rw [← h.1]
  · obtain ⟨pids, _, h⟩ := exbind_ok_inv h
    simp only [Except.ok.injEq, Prod.mk.injEq] at h
    rw [← h.1]

theorem putPage_cache_preserved {id : Nat} {page : Node} {m : Mem} {m1 : Mem}
    (h : putPage id page m = .ok m1) :
    ∀ p ∈ m1.cache, p ∈ m.cache ∨ p = (id, page) := by
  rw [putPage] at h
  rcases ite_except_inv h with ⟨_, h⟩ | ⟨_, h⟩
  · simp only [Except.ok.injEq] at h
    subst h
    intro p hp
    rcases List.mem_append.mp hp with h1 | h1
    · exact Or.inl (removeId_subset h1)
    · simp only [List.mem_singleton] at h1
      exact Or.inr h1
  rcases ite_except_inv h with ⟨_, h⟩ | ⟨_, h⟩
  · cases hc : m.cache with
    | nil =>
      rw [hc] at h
      exact absurd h (by simp)
    | cons e rest =>
      rw [hc] at h
      cases hch : e.2.is_changed <;>
        · simp only [hch, Bool.false_eq_true, if_false, if_true, writeToDisk,
            Except.ok.injEq] at h
          subst h
          intro p hp
          rcases List.mem_append.mp hp with h1 | h1
          · exact Or.inl (hc ▸ List.mem_cons_of_mem _ h1)
          · simp only [List.mem_singleton] at h1
            exact Or.inr h1
  · simp only [Except.ok.injEq] at h
    subst h
    intro p hp
    rcases List.mem_append.mp hp with h1 | h1
    · exact Or.inl h1
    · simp only [List.mem_singleton] at h1
      exact Or.inr h1

theorem getPage_cache_preserved {id : Nat} {m : Mem} {n : Node} {m1 : Mem}
    (h : getPage id m = .ok (n, m1)) :
    ∀ p ∈ m1.cache, p ∈ m.cache ∨ p.2.is_changed = false := by
  rw [getPage] at h
  cases hl : lookupPage m.cache id with
  | some n0 =>
    rw [hl] at h
    simp only [Except.ok.injEq, Prod.mk.injEq] at h
    obtain ⟨h1, h2⟩ := h
    subst h2
    intro p hp
    rcases List.mem_append.mp hp with hx | hx
    · exact Or.inl (removeId_subset hx)
    · simp only [List.mem_singleton] at hx
      subst hx
      exact Or.inl (lookupPage_mem hl)
  | none =>
    rw [hl] at h
    rcases ite_except_inv h with ⟨_, h⟩ | ⟨_, h⟩
    · exact absurd h (by simp)
    cases hdisk : lookupDisk m.disk id with
    | none =>
      rw [hdisk] at h
      exact absurd h (by simp)
    | some raw =>
      rw [hdisk] at h
      obtain ⟨r0, hdec, h⟩ := exbind_ok_inv h
      obtain ⟨m2, hput, h⟩ := exbind_ok_inv h
      simp only [Except.ok.injEq, Prod.mk.injEq] at h
      obtain ⟨h1, h2⟩ := h
      subst h2
      intro p hp
      rcases putPage_cache_preserved hput p hp with hx | hx
      · exact Or.inl hx
      · subst hx
        obtain ⟨n1, pcx⟩ := r0
        exact Or.inr (decodePage_not_changed hdec)

theorem getPageVal_cache_preserved {v : Val} {m : Mem} {n : Node} {m1 : Mem}
    (h : getPageVal v m = .ok (n, m1)) :
    ∀ p ∈ m1.cache, p ∈ m.cache ∨ p.2.is_changed = false := by
  cases v with
  | pid i =>
    rw [getPageVal] at h
    exact getPage_cache_preserved h
  | str s =>
    rw [getPageVal] at h
    exact absurd h (by simp)

theorem delDescend_cache_preserved : ∀ fuel : Nat, ∀ (key : Int) (node : Node)
    (m : Mem) (leaf : Node) (m1 : Mem),
    delDescend fuel key node m = .ok (leaf, m1) →
    ∀ p ∈ m1.cache, p ∈ m.cache ∨ p.2.is_changed = false := by
  intro fuel
  induction fuel with
  | zero =>
    intro key node m leaf m1 h
    rw [delDescend] at h
    exact absurd h (by simp)
  | succ f ih =>
    intro key node m leaf m1 h
    rw [delDescend] at h
    rcases ite_except_inv h with ⟨_, h⟩ | ⟨_, h⟩
    · simp only [Except.ok.injEq, Prod.mk.injEq] at h
      obtain ⟨h1, h2⟩ := h
      subst h2
      intro p hp
      exact Or.inl hp
    · obtain ⟨vv, hvv, h⟩ := exbind_ok_inv h
      obtain ⟨rr, hget, h⟩ := exbind_ok_inv h
      intro p hp
      obtain ⟨n2, m2⟩ := rr
      rcases ih key n2 m2 leaf m1 h p hp with hx | hx
      · rcases getPageVal_cache_preserved hget p hx with hy | hy
        · exact Or.inl hy
        · exact Or.inr hy
      · exact Or.inr hx

/-- C10: when the leaf reached by the delete descent is non-empty and
does not contain the key, `delete` returns `0`, its final state is the
descent state itself (only cache recency and possible clean loads
changed), and the keys, values and dirty flags of every node are
untouched: every cache entry after the run was either already present,
unchanged, before the run, or is a freshly decoded clean page. -/
theorem c10_delete_not_found_no_mutation (fuel : Nat) (key : Int) (t : STree)
    (root leaf : Node) (m1 : Mem)
    (hroot : t.root_node = some root)
    (hd : delDescend fuel key root t.mem = .ok (leaf, m1))
    (hne : leaf.keys ≠ [])
    (habs : key ∉ leaf.keys) :
    deleteOp fuel key t = .ok (0, { t with mem := m1 }) ∧
    ∀ p ∈ m1.cache, p ∈ t.mem.cache ∨ p.2.is_changed = false := by
  refine ⟨?_, delDescend_cache_preserved fuel key root t.mem leaf m1 hd⟩
  rw [deleteOp, hroot]
  rw [exbind_ok]
  rw [hd, exbind_ok]
  have hb := findLastLeq_bounds leaf.keys key
  obtain ⟨kv, hkv, hkvmem⟩ :=
    pyIdx_ok_of_bounds leaf.keys (findLastLeq leaf.keys key) hb.1 hb.2 hne
  dsimp only
  rw [hkv, exbind_ok]
  have hkne : kv ≠ key := fun he => habs (he ▸ hkvmem)
  rw [if_pos hkne]

theorem c10_delete_not_found_no_mutation_witness :
    deleteOp 9 7 delT = .ok (0, delT) :=
  (c10_delete_not_found_no_mutation 9 7 delT delLeaf delLeaf delT.mem
    rfl rfl (by decide) (by decide)).1

theorem leBytes_length : ∀ (w v : Nat), (leBytes w v).length = w := by
  intro w
  induction w with
  | zero => intro v; rw [leBytes]; rfl
  | succ w ih => intro v; rw [leBytes, List.length_cons, ih]

theorem readLE_leBytes : ∀ (w v : Nat), readLE (leBytes w v) = v % 256 ^ w := by
  intro w
  induction w with
  | zero =>
    intro v
    rw [leBytes, readLE, pow_zero, Nat.mod_one]
  | succ w ih =>
    intro v
    rw [leBytes, readLE, ih, pow_succ]
    have h1 : v % (256 * 256 ^ w) % 256 = v % 256 :=
      Nat.mod_mod_of_dvd v ⟨256 ^ w, rfl⟩
    have h2 : v % (256 * 256 ^ w) / 256 = v / 256 % 256 ^ w := by
      rw [Nat.mod_mul_right_div_self]
    have h3 := Nat.div_add_mod (v % (256 * 256 ^ w)) 256
    calc v % 256 + 256 * (v / 256 % 256 ^ w)
        = v % (256 * 256 ^ w) % 256 + 256 * (v % (256 * 256 ^ w) / 256) := by
          rw [h1, h2]
      _ = v % (256 ^ w * 256) := by rw [Nat.mul_comm (256 ^ w) 256]; omega

theorem readField_prepend (w v : Nat) (rest : List Nat) (h : v < 256 ^ w) :
    readField w (leBytes w v ++ rest) = (v, rest) := by
  rw [readField, List.take_left' (leBytes_length w v),
    List.drop_left' (leBytes_length w v), readLE_leBytes, Nat.mod_eq_of_lt h]

theorem sint32_int32 (k : Int) (h1 : -2147483648 ≤ k) (h2 : k < 2147483648) :
    sint32 ((k % 4294967296).toNat) = k := by
  rw [sint32]
  split <;> omega

theorem int32LE_length (k : Int) : (int32LE k).length = 4 := by
  rw [int32LE, leBytes_length]

theorem keysBytes_length : ∀ ks : List Int,
    (ks.flatMap int32LE).length = 4 * ks.length := by
  intro ks
  induction ks with
  | nil => rfl
  | cons k r ih =>
    rw [List.flatMap_cons, List.length_append, int32LE_length, ih,
      List.length_cons]
    omega

theorem parseKeys_spec : ∀ (ks : List Int) (rest : List Nat),
    (∀ k ∈ ks, -2147483648 ≤ k ∧ k < 2147483648) →
    decodePage.parseKeys ks.length (ks.flatMap int32LE ++ rest) = (ks, rest) := by
  intro ks
  induction ks with
  | nil => intro rest _; rw [List.length_nil, decodePage.parseKeys]; rfl
  | cons k r ih =>
    intro rest hk
    rw [List.length_cons, decodePage.parseKeys, List.flatMap_cons,
      List.append_assoc]
    have htake : (int32LE k ++ (r.flatMap int32LE ++ rest)).take 4 = int32LE k := by
      rw [show (4 : Nat) = (int32LE k).length from (int32LE_length k).symm,
        List.take_left]
    have hdrop : (int32LE k ++ (r.flatMap int32LE ++ rest)).drop 4 =
        r.flatMap int32LE ++ rest := by
      rw [show (4 : Nat) = (int32LE k).length from (int32LE_length k).symm,
        List.drop_left]
    rw [htake, hdrop, ih rest (fun x hx => hk x (List.mem_cons_of_mem _ hx))]
    have hk0 := hk k (List.mem_cons_self _ _)
    rw [int32LE, readLE_leBytes]
    have hm : k.emod 4294967296 = k % 4294967296 := rfl
    have hlt : ((k % 4294967296).toNat) < 256 ^ 4 := by norm_num; omega
    rw [hm, Nat.mod_eq_of_lt hlt, sint32_int32 k hk0.1 hk0.2]

theorem decAux_digits : ∀ (fuel n : Nat), ∀ b ∈ decAux fuel n, 48 ≤ b ∧ b ≤ 57 := by
  intro fuel
  induction fuel with
  | zero => intro n b hb; rw [decAux] at hb; cases hb
  | succ fuel ih =>
    intro n b hb
    rw [decAux] at hb
    by_cases hn : n = 0
    · rw [if_pos hn] at hb; cases hb
    · rw [if_neg hn] at hb
      rcases List.mem_append.mp hb with h | h
      · exact ih (n / 10) b h
      · rcases List.mem_singleton.mp h with rfl
        constructor
        · omega
        · have := Nat.mod_lt n (show 0 < 10 by omega)
          omega

theorem decRepr_digits (n : Nat) : ∀ b ∈ decRepr n, 48 ≤ b ∧ b ≤ 57 := by
  intro b hb
  rw [decRepr] at hb
  by_cases hn : n = 0
  · rw [if_pos hn] at hb
    rcases List.mem_singleton.mp hb with rfl
    omega
  · rw [if_neg hn] at hb
    exact decAux_digits (n + 1) n b hb

theorem decRepr_ne_nil (n : Nat) : decRepr n ≠ [] := by
  rw [decRepr]
  by_cases hn : n = 0
  · rw [if_pos hn]; exact List.cons_ne_nil _ _
  · rw [if_neg hn, decAux, if_neg hn]
    exact List.append_ne_nil_of_right_ne_nil _ (List.cons_ne_nil _ _)

theorem parseDec_append_digit (a : List Nat) (d : Nat) :
    parseDec (a ++ [d]) = parseDec a * 10 + (d - 48) := by
  rw [parseDec, parseDec, List.foldl_append]
  rfl

theorem parseDec_decAux : ∀ (fuel n : Nat), n < fuel →
    parseDec (decAux fuel n) = n := by
  intro fuel
  induction fuel with
  | zero => intro n h; omega
  | succ fuel ih =>
    intro n h
    rw [decAux]
    by_cases hn : n = 0
    · rw [if_pos hn, hn]; rfl
    · rw [if_neg hn, parseDec_append_digit]
      have hdiv : n / 10 < fuel := by
        have h1 : n / 10 < n := Nat.div_lt_self (Nat.pos_of_ne_zero hn) (by omega)
        omega
      rw [ih (n / 10) hdiv]
      omega

theorem parseDecE_decRepr (n : Nat) : parseDecE (decRepr n) = .ok n := by
  rw [parseDecE, if_pos]
  · rw [decRepr]
    by_cases hn : n = 0
    · rw [if_pos hn, hn]; rfl
    · rw [if_neg hn, parseDec_decAux (n + 1) n (by omega)]
  · refine ⟨decRepr_ne_nil n, ?_⟩
    rw [List.all_eq_true]
    intro b hb
    have := decRepr_digits n b hb
    exact decide_eq_true (by omega)

theorem splitOnZero_zerofree_append :
    ∀ (s rest : List Nat), (∀ b ∈ s, b ≠ 0) →
    splitOnZero (s ++ 0 :: rest) = s :: splitOnZero rest := by
  intro s
  induction s with
  | nil => intro rest _; rw [List.nil_append, splitOnZero, if_pos rfl]
  | cons b bs ih =>
    intro rest hz
    have hb : b ≠ 0 := hz b (List.mem_cons_self _ _)
    rw [List.cons_append, splitOnZero, if_neg hb,
      ih rest (fun x hx => hz x (List.mem_cons_of_mem _ hx))]

theorem splitOnZero_replicate : ∀ p : Nat,
    splitOnZero (List.replicate p 0) = List.replicate (p + 1) [] := by
  intro p
  induction p with
  | zero => rfl
  | succ p ih =>
    rw [List.replicate_succ, splitOnZero, if_pos rfl, ih]
    rfl

theorem collectSegs_empty_head (gs : List (List Nat)) :
    collectSegs ([] :: gs) = [] := by
  rw [collectSegs, if_pos rfl]

theorem collect_split_encVals : ∀ (vs : List Val) (p : Nat),
    (∀ v ∈ vs, valBytes v ≠ [] ∧ ∀ b ∈ valBytes v, b ≠ 0) →
    collectSegs (splitOnZero (encVals vs ++ List.replicate p 0)) =
      vs.map valBytes := by
  intro vs
  induction vs with
  | nil =>
    intro p _
    rw [encVals]
    have h0 : ([0] : List Nat) ++ List.replicate p 0 = List.replicate (p + 1) 0 := by
      rw [List.replicate_succ]; rfl
    rw [List.isEmpty_nil, if_pos rfl, h0, splitOnZero_replicate,
      List.replicate_succ, collectSegs_empty_head, List.map_nil]
  | cons v vs ih =>
    intro p hz
    have hv := hz v (List.mem_cons_self _ _)
    have hrest : ∀ w ∈ vs, valBytes w ≠ [] ∧ ∀ b ∈ valBytes w, b ≠ 0 :=
      fun w hw => hz w (List.mem_cons_of_mem _ hw)
    rw [encVals]
    have hne : ((v :: vs).isEmpty = true) = False := by
      rw [List.isEmpty_cons]; simp
    rw [if_neg (by rw [hne]; exact id), List.flatMap_cons]
    have hshape : (valBytes v ++ [0]) ++ (vs.flatMap fun w => valBytes w ++ [0]) ++
        List.replicate p 0 =
        valBytes v ++ (0 :: ((vs.flatMap fun w => valBytes w ++ [0]) ++
          List.replicate p 0)) := by
      simp [List.append_assoc]
    rw [hshape, splitOnZero_zerofree_append _ _ hv.2, collectSegs,
      if_neg hv.1, List.map_cons]
    by_cases hvs : vs = []
    · subst hvs
      rw [List.flatMap_nil, List.nil_append, splitOnZero_replicate,
        List.replicate_succ, collectSegs_empty_head, List.map_nil]
    · have := ih p hrest
      rw [encVals, if_neg (by rw [List.isEmpty_eq_true]; exact hvs)] at this
      rw [this]

theorem map_str_valBytes : ∀ vs : List Val,
    (∀ v ∈ vs, ∃ s, v = Val.str s) → (vs.map valBytes).map Val.str = vs := by
  intro vs
  induction vs with
  | nil => intro _; rfl
  | cons v vs ih =>
    intro h
    rcases h v (List.mem_cons_self _ _) with ⟨s, rfl⟩
    rw [List.map_cons, List.map_cons, ih (fun w hw => h w (List.mem_cons_of_mem _ hw))]
    rfl

theorem decode_pid_values : ∀ vs : List Val,
    (∀ v ∈ vs, ∃ p, v = Val.pid p) →
    ∃ ps : List Nat, (vs.map valBytes).mapM parseDecE = .ok ps ∧
      ps.map Val.pid = vs := by
  intro vs
  induction vs with
  | nil => intro _; exact ⟨[], rfl, rfl⟩
  | cons v vs ih =>
    intro h
    rcases h v (List.mem_cons_self _ _) with ⟨p, rfl⟩
    rcases ih (fun w hw => h w (List.mem_cons_of_mem _ hw)) with ⟨ps, hps, hmap⟩
    refine ⟨p :: ps, ?_, ?_⟩
    · rw [List.map_cons, List.mapM_cons]
      rw [show valBytes (Val.pid p) = decRepr p from rfl, parseDecE_decRepr, hps]
      rfl
    · rw [List.map_cons, hmap]

theorem encVals_length_ge (vs : List Val) : 1 ≤ (encVals vs).length := by
  rw [encVals]
  by_cases h : vs.isEmpty
  · rw [if_pos h]; exact Nat.le_refl 1
  · rw [if_neg h]
    cases vs with
    | nil => cases h List.isEmpty_nil
    | cons v vs =>
      rw [List.flatMap_cons, List.length_append, List.length_append]
      simp
      omega

theorem serialize_length (n : Node) : (serialize n).length =
    44 + 4 * n.keys.length + (encVals (n.values.take n.keys.length)).length := by
  rw [serialize]
  simp only [List.length_append, leBytes_length, keysBytes_length]

theorem valIsGoodStr_spec (v : Val) (h : valIsGoodStr v = true) :
    ∃ s, v = Val.str s ∧ s ≠ [] ∧ ∀ b ∈ s, b ≠ 0 := by
  cases v with
  | pid p => exact absurd h Bool.false_ne_true
  | str s =>
    rw [valIsGoodStr, Bool.and_eq_true] at h
    refine ⟨s, rfl, ?_, ?_⟩
    · intro hnil
      rw [hnil] at h
      exact absurd h.1 (by decide)
    · intro b hb
      rw [List.all_eq_true] at h
      have := h.2 b hb
      intro h0
      rw [h0] at this
      exact absurd this (by decide)

theorem valIsPid_spec (v : Val) (h : valIsPid v = true) :
    ∃ p, v = Val.pid p := by
  cases v with
  | pid p => exact ⟨p, rfl⟩
  | str s => exact absurd h Bool.false_ne_true

theorem ite_one_zero_ne (c : Prop) [Decidable c] :
    ((if c then (1 : Nat) else 0) ≠ 0) = c := by
  by_cases h : c <;> simp [h]

/-- **C9, counterexample.** `decode(encode(N)) == N` fails already on a
root node: the encoder writes `self.page_parent or 0` and the decoder
unpacks the field as the integer `0`, so a `None` parent comes back as
`0` and the parent-id fields differ (`Node.serialize`,
`Memorymanagement.read_from_disk`). -/
theorem c9_roundtrip_root_parent_mismatch :
    (decodePage (pagePad (serialize rtNode)) 0).map
      (fun r => r.1.page_parent) = .ok (some 0) ∧
    rtNode.page_parent = none := by
  exact ⟨rfl, rfl⟩

/-- **C9, amended.** For a node whose keys are 32-bit signed integers
matched one-to-one with its values, whose ids fit eight bytes, and
whose values are well-formed for its kind (leaf: nonempty zero-free
byte strings; internal: child page ids), decoding the padded page
written by `Node.serialize` recovers the page id, `is_leaf`, keys and
values exactly, while each of the parent/prev/next pointers comes back
as `Some (x or 0)` — `None` pointers decode as `0`, so the round-trip
is the identity only up to that pointer encoding (and the dirty bit,
which decoding clears). -/
theorem c9_roundtrip_amended (n : Node) (pc : Nat)
    (h1 : n.page_offset < 18446744073709551616)
    (h2 : n.page_parent.getD 0 < 18446744073709551616)
    (h3 : n.page_prev.getD 0 < 18446744073709551616)
    (h4 : n.page_next.getD 0 < 18446744073709551616)
    (h5 : n.keys.length < 18446744073709551616)
    (h6 : n.values.length = n.keys.length)
    (h7 : ∀ k ∈ n.keys, -2147483648 ≤ k ∧ k < 2147483648)
    (h8 : n.is_leaf = true → ∀ v ∈ n.values, valIsGoodStr v = true)
    (h9 : n.is_leaf = false → ∀ v ∈ n.values, valIsPid v = true) :
    decodePage (pagePad (serialize n)) pc =
      .ok ({ page_offset := n.page_offset,
             page_parent := some (n.page_parent.getD 0),
             page_prev := some (n.page_prev.getD 0),
             page_next := some (n.page_next.getD 0),
             keys := n.keys, values := n.values,
             is_leaf := n.is_leaf, is_changed := false }, pc + 1) := by
  obtain ⟨pad, hpd⟩ :
      ∃ pad, pagePad (serialize n) = serialize n ++ List.replicate pad 0 :=
    ⟨_, rfl⟩
  have htake : n.values.take n.keys.length = n.values := by
    rw [← h6, List.take_length]
  have hpad2 : serialize n ++ List.replicate pad 0 =
      leBytes 8 n.page_offset ++
      (leBytes 8 (n.page_parent.getD 0) ++
      (leBytes 8 (n.page_prev.getD 0) ++
      (leBytes 8 (n.page_next.getD 0) ++
      (leBytes 4 (if n.is_leaf then 1 else 0) ++
      (leBytes 8 n.keys.length ++
      (n.keys.flatMap int32LE ++
      (encVals n.values ++ List.replicate pad 0))))))) := by
    rw [serialize, htake]
    simp only [List.append_assoc]
  have hge : ¬ pyLen (serialize n ++ List.replicate pad 0) < 44 := by
    rw [pyLen_eq, List.length_append, List.length_replicate, serialize_length,
      htake]
    have := encVals_length_ge n.values
    omega
  have hg2 : ¬ pyLen (n.keys.flatMap int32LE ++
      (encVals n.values ++ List.replicate pad 0)) < 4 * n.keys.length := by
    rw [pyLen_eq, List.length_append, List.length_append, keysBytes_length,
      List.length_replicate]
    have := encVals_length_ge n.values
    omega
  have hgood : ∀ v ∈ n.values, valBytes v ≠ [] ∧ ∀ b ∈ valBytes v, b ≠ 0 := by
    intro v hv
    cases hbv : n.is_leaf with
    | true =>
      rcases valIsGoodStr_spec v (h8 hbv v hv) with ⟨s, rfl, hs1, hs2⟩
      exact ⟨hs1, hs2⟩
    | false =>
      rcases valIsPid_spec v (h9 hbv v hv) with ⟨p, rfl⟩
      refine ⟨decRepr_ne_nil p, ?_⟩
      intro b hb
      have := decRepr_digits p b hb
      omega
  rw [hpd, decodePage, if_neg hge]
  dsimp only
  rw [hpad2]
  rw [readField_prepend 8 n.page_offset _ (lt_of_lt_of_le h1 (by norm_num))]
  dsimp only
  rw [readField_prepend 8 (n.page_parent.getD 0) _
    (lt_of_lt_of_le h2 (by norm_num))]
  dsimp only
  rw [readField_prepend 8 (n.page_prev.getD 0) _
    (lt_of_lt_of_le h3 (by norm_num))]
  dsimp only
  rw [readField_prepend 8 (n.page_next.getD 0) _
    (lt_of_lt_of_le h4 (by norm_num))]
  dsimp only
  rw [readField_prepend 4 (if n.is_leaf then 1 else 0) _
    (by split <;> norm_num)]
  dsimp only
  rw [readField_prepend 8 n.keys.length _ (lt_of_lt_of_le h5 (by norm_num))]
  dsimp only
  rw [if_neg hg2, parseKeys_spec n.keys _ h7]
  dsimp only
  rw [collect_split_encVals n.values pad hgood]
  simp only [ite_one_zero_ne]
  by_cases hleaf : n.is_leaf = true
  · rw [if_pos hleaf,
      map_str_valBytes n.values (fun v hv =>
        match valIsGoodStr_spec v (h8 hleaf v hv) with
        | ⟨s, hs, _, _⟩ => ⟨s, hs⟩),
      hleaf]
  · have hfalse : n.is_leaf = false := by
      cases hb : n.is_leaf with
      | false => rfl
      | true => exact absurd hb hleaf
    rw [if_neg hleaf]
    obtain ⟨ps, hps, hmap⟩ :=
      decode_pid_values n.values (fun v hv => valIsPid_spec v (h9 hfalse v hv))
    rw [hps, exbind_ok]
    rw [hmap, hfalse]

/-- Witness: a concrete two-record leaf round-trips through
`serialize`/`decodePage` up to the pointer re-encoding. -/
theorem c9_roundtrip_amended_witness :
    decodePage (pagePad (serialize rtwNode)) 3 =
      .ok ({ page_offset := 2, page_parent := some 1, page_prev := some 0,
             page_next := some 0, keys := [-5, 10],
             values := [.str [97], .str [98, 99]],
             is_leaf := true, is_changed := false }, 4) :=
  c9_roundtrip_amended rtwNode 3 (by decide) (by decide) (by decide)
    (by decide) (by decide) (by decide) (by decide) (by decide) (by decide)

end BPT
